import Mathlib

/-!
Verification of the recurring-job scheduler of `src/worker/routine-job.ts`
(`class RoutineJob`).  JavaScript strings are modelled as lists of
characters, JS numbers occurring here (timestamps in milliseconds and
calendar components) as `Int`, and NaN as `none` in an `Option Int`.
The `name` and `logger` members of the class play no part in the
scheduling decision and are omitted from the state.
-/

/-- A JavaScript string, modelled as its list of characters. -/
abbrev JSString := List Char

/-- Convert a Lean string literal to the `JSString` model. -/
def str (s : String) : JSString := s.data

/-- JS `s.split(sep)` for a one-character separator `sep`: the list of
(possibly empty) chunks of `s` between occurrences of `sep`.  On the empty
string it returns `[""]`, exactly as in JS. -/
def splitOnChar (sep : Char) : List Char → List JSString
  | [] => [[]]
  | c :: rest =>
    match splitOnChar sep rest with
    | [] => [[c]]
    | t :: ts => if c = sep then [] :: t :: ts else (c :: t) :: ts

/-- The character for decimal digit `d`, i.e. code point `48 + d`. -/
def digitChar (d : Nat) : Char := Char.ofNat (48 + d)

/-- Big-endian decimal digits of `n`, by fuel recursion (the fuel is an upper
bound on `n`, mirroring repeated division by 10). -/
def natToCharsAux : Nat → Nat → List Char
  | 0, _ => []
  | fuel + 1, n =>
    if n < 10 then [digitChar n]
    else natToCharsAux fuel (n / 10) ++ [digitChar (n % 10)]

/-- The decimal representation of a natural number, e.g. `15 ↦ "15"`. -/
def natToChars (n : Nat) : List Char := natToCharsAux (n + 1) n

/-- JS `value.toString()` for an integral number: decimal digits, with a
leading `'-'` for negative values. -/
def intToChars : Int → List Char
  | .ofNat n => natToChars n
  | .negSucc n => '-' :: natToChars (n + 1)

/-- The numeric value of a decimal digit character, if it is one. -/
def digitVal (c : Char) : Option Nat :=
  if 48 ≤ c.toNat ∧ c.toNat ≤ 57 then some (c.toNat - 48) else none

/-- The numeric value of a hexadecimal digit character, if it is one. -/
def hexVal (c : Char) : Option Nat :=
  if 48 ≤ c.toNat ∧ c.toNat ≤ 57 then some (c.toNat - 48)
  else if 97 ≤ c.toNat ∧ c.toNat ≤ 102 then some (c.toNat - 87)
  else if 65 ≤ c.toNat ∧ c.toNat ≤ 70 then some (c.toNat - 55)
  else none

/-- Accumulate the value of a maximal leading run of digits (read by `f`,
in base `base`) starting from `acc`; stops at the first non-digit. -/
def leadingValAux (f : Char → Option Nat) (base : Nat) (acc : Nat) : List Char → Nat
  | [] => acc
  | c :: rest =>
    match f c with
    | some d => leadingValAux f base (acc * base + d) rest
    | none => acc

/-- The value of the maximal nonempty leading run of digits of `s`;
`none` when `s` does not start with a digit. -/
def leadingVal (f : Char → Option Nat) (base : Nat) : List Char → Option Nat
  | [] => none
  | c :: rest =>
    match f c with
    | some d => some (leadingValAux f base d rest)
    | none => none

/-- Accumulate the value of a string that must consist entirely of digits;
`none` as soon as a non-digit appears. -/
def allDigitsValAux (f : Char → Option Nat) (base : Nat) (acc : Nat) : List Char → Option Nat
  | [] => some acc
  | c :: rest =>
    match f c with
    | some d => allDigitsValAux f base (acc * base + d) rest
    | none => none

/-- The value of a nonempty all-digit string; `none` on the empty string or
when any character is not a digit. -/
def allDigitsVal (f : Char → Option Nat) (base : Nat) : List Char → Option Nat
  | [] => none
  | l => allDigitsValAux f base 0 l

/-- ECMAScript whitespace, as skipped by `parseInt` and trimmed by `Number`:
the WhiteSpace production (TAB U+0009, VT U+000B, FF U+000C, SP U+0020,
NBSP U+00A0, ZWNBSP U+FEFF, and the Unicode Space_Separator category
U+1680, U+2000–U+200A, U+202F, U+205F, U+3000) together with the
LineTerminator production (LF U+000A, CR U+000D, LS U+2028, PS U+2029). -/
def jsWhitespace (c : Char) : Bool :=
  c.toNat = 0x09 || c.toNat = 0x0A || c.toNat = 0x0B || c.toNat = 0x0C ||
  c.toNat = 0x0D || c.toNat = 0x20 || c.toNat = 0xA0 || c.toNat = 0x1680 ||
  (0x2000 ≤ c.toNat && c.toNat ≤ 0x200A) || c.toNat = 0x2028 || c.toNat = 0x2029 ||
  c.toNat = 0x202F || c.toNat = 0x205F || c.toNat = 0x3000 || c.toNat = 0xFEFF

/-- JS `parseInt(s)` (radix unspecified): skip leading whitespace, read an
optional sign, then either a `0x`/`0X` prefix followed by a leading run of
hex digits, or a leading run of decimal digits; trailing garbage is ignored;
`none` models NaN (no digits at all). -/
def jsParseInt (s : JSString) : Option Int :=
  let s1 := s.dropWhile jsWhitespace
  let signAndRest : Bool × JSString :=
    match s1 with
    | '-' :: rest => (true, rest)
    | '+' :: rest => (false, rest)
    | _ => (false, s1)
  let mag : Option Nat :=
    match signAndRest.2 with
    | '0' :: 'x' :: rest => leadingVal hexVal 16 rest
    | '0' :: 'X' :: rest => leadingVal hexVal 16 rest
    | l => leadingVal digitVal 10 l
  match mag with
  | none => none
  | some m => some (if signAndRest.1 then -(m : Int) else (m : Int))

/-- JS `Number(s)` conversion, restricted to the integral literals that can
denote a cron field bound: after trimming whitespace on both sides, the empty
string is `0`, an optional sign followed by a nonempty all-digit string is
that integer, and an unsigned `0x`/`0X` prefix followed by nonempty hex
digits is that integer.  Fractional, exponent and `Infinity` literals, which
cannot denote an integral calendar component, are modelled as NaN (`none`). -/
def jsNumber (s : JSString) : Option Int :=
  let t := ((s.dropWhile jsWhitespace).reverse.dropWhile jsWhitespace).reverse
  match t with
  | [] => some 0
  | '0' :: 'x' :: rest => (allDigitsVal hexVal 16 rest).map Int.ofNat
  | '0' :: 'X' :: rest => (allDigitsVal hexVal 16 rest).map Int.ofNat
  | '-' :: rest => (allDigitsVal digitVal 10 rest).map (fun m => -(m : Int))
  | '+' :: rest => (allDigitsVal digitVal 10 rest).map Int.ofNat
  | l => (allDigitsVal digitVal 10 l).map Int.ofNat

/-- `RoutineJob.matchesField(value, pattern)`:
`"*"` matches everything; a pattern containing a comma is split on commas and
matches iff one chunk equals `value.toString()`; otherwise a pattern
containing a dash is split on dashes, its first two chunks converted by
`Number`, and matches iff `start <= value && value <= end` (false when either
is NaN); otherwise the pattern matches iff `parseInt(pattern) === value`. -/
def matchesField (value : Int) (pattern : JSString) : Bool :=
  if pattern = str "*" then true
  else if pattern.contains ',' then
    (splitOnChar ',' pattern).contains (intToChars value)
  else if pattern.contains '-' then
    match (splitOnChar '-' pattern).map jsNumber with
    | some a :: some b :: _ => decide (a ≤ value ∧ value ≤ b)
    | _ => false
  else
    match jsParseInt pattern with
    | some n => decide (n = value)
    | none => false

/-- The five pattern fields of a `RoutineJob`, as assigned by its
constructor from the five space-separated parts of the cron expression. -/
structure Schedule where
  minute : JSString
  hour : JSString
  day : JSString
  month : JSString
  weekday : JSString
  deriving DecidableEq

/-- A JS `Date` as observed by `RoutineJob`: `time` is `getTime()` in
milliseconds, and the calendar components are what the local-time accessors
report — `minutes = getMinutes()`, `hours = getHours()`,
`date = getDate()` (day of month), `month = getMonth()` (zero-based),
`day = getDay()` (day of week, 0–6). -/
structure JSDate where
  time : Int
  minutes : Int
  hours : Int
  date : Int
  month : Int
  day : Int

/-- `RoutineJob.matchesSchedule(dt)`: the five early-return field checks of
the source, in order (minute, hour, day of month, one-based month,
weekday). -/
def matchesSchedule (s : Schedule) (dt : JSDate) : Bool :=
  if !matchesField dt.minutes s.minute then false
  else if !matchesField dt.hours s.hour then false
  else if !matchesField dt.date s.day then false
  else if !matchesField (dt.month + 1) s.month then false
  else if !matchesField dt.day s.weekday then false
  else true

/-- The mutable state of one `RoutineJob`: its parsed schedule and the
`lastRun` timestamp (`getTime()` of the stored `Date`, `none` for null). -/
structure JobState where
  sched : Schedule
  lastRun : Option Int

/-- `RoutineJob.shouldRun()` evaluated at an explicit observed `Date`:
returns the boolean decision together with the state after the call.
Fires iff (`lastRun` is null or `now.getTime() - lastRun.getTime() > 60000`)
and the schedule matches `now`; on fire, `lastRun` is set to `now`. -/
def shouldRun (st : JobState) (now : JSDate) : Bool × JobState :=
  let armed : Bool :=
    match st.lastRun with
    | none => true
    | some t => decide (now.time - t > 60000)
  if armed then
    if matchesSchedule st.sched now then
      (true, { st with lastRun := some now.time })
    else (false, st)
  else (false, st)

/-- The `RoutineJob` constructor's treatment of the cron expression: split on
the space character; if there are not exactly five parts, throw
(`none` here); otherwise the five parts become the five fields in order. -/
def parseSchedule (cronExpression : JSString) : Option Schedule :=
  let cronParts := splitOnChar ' ' cronExpression
  if h : cronParts.length = 5 then
    some ⟨cronParts.get ⟨0, by omega⟩, cronParts.get ⟨1, by omega⟩, cronParts.get ⟨2, by omega⟩,
      cronParts.get ⟨3, by omega⟩, cronParts.get ⟨4, by omega⟩⟩
  else none

/-- Split on every character satisfying `p` (same chunk structure as
`splitOnChar`, with a predicate). -/
def splitOnPred (p : Char → Bool) : List Char → List JSString
  | [] => [[]]
  | c :: rest =>
    match splitOnPred p rest with
    | [] => [[c]]
    | t :: ts => if p c then [] :: t :: ts else (c :: t) :: ts

/-- Follows the spec's words (§4.2 "five whitespace-separated tokens"), for
comparison with `parseSchedule`: tokenize the expression on whitespace
characters, discarding empty tokens. -/
def wsTokens (s : JSString) : List JSString :=
  (splitOnPred Char.isWhitespace s).filter (fun t => !t.isEmpty)

/-- The `getTime()` values of the firings produced by a sequence of
`shouldRun` calls observing the given dates in order, threading the state. -/
def firedTimes (st : JobState) : List JSDate → List Int
  | [] => []
  | d :: ds =>
    let step := shouldRun st d
    if step.1 then d.time :: firedTimes step.2 ds else firedTimes step.2 ds

/-- The value read back from a big-endian list of decimal digit characters. -/
def decValue (l : List Char) : Nat :=
  l.foldl (fun acc c => acc * 10 + (c.toNat - 48)) 0

lemma digitChar_toNat {d : Nat} (h : d < 10) : (digitChar d).toNat = 48 + d := by
  interval_cases d <;> decide

lemma decValue_append_digit (l : List Char) (c : Char) :
    decValue (l ++ [c]) = decValue l * 10 + (c.toNat - 48) := by
  simp [decValue, List.foldl_append]

lemma natToCharsAux_decValue (fuel : Nat) :
    ∀ n, n < fuel → decValue (natToCharsAux fuel n) = n := by
  induction fuel with
  | zero => intro n h; omega
  | succ fuel ih =>
    intro n h
    by_cases h10 : n < 10
    · simp [natToCharsAux, h10, decValue, digitChar_toNat h10]
    · have h1 : n / 10 < fuel := by omega
      have h2 := ih (n / 10) h1
      have hm : n % 10 < 10 := Nat.mod_lt n (by omega)
      rw [natToCharsAux, if_neg h10, decValue_append_digit, h2, digitChar_toNat hm]
      omega

lemma natToChars_decValue (n : Nat) : decValue (natToChars n) = n :=
  natToCharsAux_decValue (n + 1) n (by omega)

lemma natToChars_injective : Function.Injective natToChars := by
  intro m n h
  have hm := natToChars_decValue m
  rw [h, natToChars_decValue] at hm
  omega

lemma natToCharsAux_digits (fuel : Nat) :
    ∀ n c, c ∈ natToCharsAux fuel n → ∃ d, d < 10 ∧ c = digitChar d := by
  induction fuel with
  | zero => intro n c h; simp [natToCharsAux] at h
  | succ fuel ih =>
    intro n c h
    by_cases h10 : n < 10
    · rw [natToCharsAux, if_pos h10] at h
      simp at h
      exact ⟨n, h10, h⟩
    · rw [natToCharsAux, if_neg h10] at h
      simp at h
      rcases h with h | h
      · exact ih _ _ h
      · exact ⟨n % 10, Nat.mod_lt n (by omega), h⟩

lemma mem_natToChars_isDigit {n : Nat} {c : Char} (h : c ∈ natToChars n) :
    48 ≤ c.toNat ∧ c.toNat ≤ 57 := by
  obtain ⟨d, hd, rfl⟩ := natToCharsAux_digits (n + 1) n c h
  rw [digitChar_toNat hd]
  omega

lemma intToChars_injective : Function.Injective intToChars := by
  intro a b h
  match a, b with
  | .ofNat m, .ofNat n =>
    simp only [intToChars] at h
    rw [natToChars_injective h]
  | .ofNat m, .negSucc n =>
    simp only [intToChars] at h
    have : '-' ∈ natToChars m := by rw [h]; exact List.mem_cons_self _ _
    have h2 := mem_natToChars_isDigit this
    simp at h2
  | .negSucc m, .ofNat n =>
    simp only [intToChars] at h
    have : '-' ∈ natToChars n := by rw [← h]; exact List.mem_cons_self _ _
    have h2 := mem_natToChars_isDigit this
    simp at h2
  | .negSucc m, .negSucc n =>
    simp only [intToChars, List.cons.injEq, true_and] at h
    have := natToChars_injective h
    have hmn : m = n := by omega
    rw [hmn]

lemma intToChars_eq_lit_iff (v n : Int) (s : JSString) (hs : intToChars n = s) :
    intToChars v = s ↔ v = n := by
  constructor
  · intro h
    exact intToChars_injective (h.trans hs.symm)
  · rintro rfl
    exact hs

lemma intToChars_ne_of_mem {s : JSString} {c : Char}
    (hc : c ∈ s) (h1 : ¬(48 ≤ c.toNat ∧ c.toNat ≤ 57)) (h2 : c ≠ '-') (v : Int) :
    intToChars v ≠ s := by
  intro he
  match v with
  | .ofNat n =>
    simp only [intToChars] at he
    rw [← he] at hc
    exact h1 (mem_natToChars_isDigit hc)
  | .negSucc n =>
    simp only [intToChars] at he
    rw [← he] at hc
    rcases List.mem_cons.mp hc with h | h
    · exact h2 h
    · exact h1 (mem_natToChars_isDigit h)

lemma intToChars_ne_of_dash_tail (v : Int) (a : Char) (l : List Char)
    (ha : a ≠ '-') (hd : '-' ∈ l) : intToChars v ≠ a :: l := by
  intro he
  match v with
  | .ofNat n =>
    simp only [intToChars] at he
    have hm : '-' ∈ natToChars n := by rw [he]; exact List.mem_cons_of_mem _ hd
    have h2 := mem_natToChars_isDigit hm
    simp at h2
  | .negSucc n =>
    simp only [intToChars] at he
    exact ha (List.cons.injEq .. ▸ he).1.symm

lemma splitOnChar_of_not_mem {sep : Char} {l : List Char} (h : sep ∉ l) :
    splitOnChar sep l = [l] := by
  induction l with
  | nil => rfl
  | cons c cs ih =>
    have hc : c ≠ sep := by rintro rfl; exact h (List.mem_cons_self _ _)
    have hcs : sep ∉ cs := fun hm => h (List.mem_cons_of_mem _ hm)
    rw [splitOnChar, ih hcs]
    simp [hc]

lemma matchesField_list {v : Int} {p : JSString} (hp : p.contains ',' = true) :
    matchesField v p = (splitOnChar ',' p).contains (intToChars v) := by
  have hstar : p ≠ str "*" := by
    rintro rfl
    exact absurd hp (by decide)
  rw [matchesField, if_neg hstar, if_pos hp]

lemma shouldRun_armed_match {st : JobState} {now : JSDate}
    (harm : st.lastRun = none ∨ ∃ t, st.lastRun = some t ∧ now.time - t > 60000)
    (hm : matchesSchedule st.sched now = true) :
    shouldRun st now = (true, { st with lastRun := some now.time }) := by
  rcases harm with hl | ⟨t, hl, ht⟩ <;> simp [shouldRun, hl, hm, *]

lemma shouldRun_blocked {st : JobState} {now : JSDate} {t : Int}
    (hl : st.lastRun = some t) (hw : now.time - t ≤ 60000) :
    shouldRun st now = (false, st) := by
  have hng : ¬(now.time - t > 60000) := by omega
  simp [shouldRun, hl, hng]

lemma shouldRun_cases (st : JobState) (now : JSDate) :
    shouldRun st now = (false, st) ∨
      (shouldRun st now = (true, { st with lastRun := some now.time }) ∧
        matchesSchedule st.sched now = true ∧
        ∀ t, st.lastRun = some t → now.time - t > 60000) := by
  unfold shouldRun
  cases hl : st.lastRun with
  | none => cases hm : matchesSchedule st.sched now <;> simp [hm]
  | some t =>
    by_cases ht : now.time - t > 60000 <;>
      cases hm : matchesSchedule st.sched now <;> simp [hm, ht]

lemma firedTimes_lower_bound :
    ∀ (dates : List JSDate) (st : JobState) (t : Int), st.lastRun = some t →
      ∀ u ∈ firedTimes st dates, t < u := by
  intro dates
  induction dates with
  | nil => intro st t _ u hu; simp [firedTimes] at hu
  | cons d ds ih =>
    intro st t hl u hu
    rcases shouldRun_cases st d with hc | ⟨hc, _, hgap⟩
    · rw [firedTimes, hc] at hu
      simp at hu
      exact ih st t hl u hu
    · rw [firedTimes, hc] at hu
      simp at hu
      have htd : t < d.time := by have := hgap t hl; omega
      rcases hu with rfl | hu
      · exact htd
      · have := ih { st with lastRun := some d.time } d.time rfl u hu
        omega

lemma firedTimes_chain :
    ∀ (dates : List JSDate) (st : JobState), List.Chain' (· < ·) (firedTimes st dates) := by
  intro dates
  induction dates with
  | nil => intro st; simp [firedTimes]
  | cons d ds ih =>
    intro st
    rcases shouldRun_cases st d with hc | ⟨hc, _, _⟩
    · have hexp : firedTimes st (d :: ds) = firedTimes st ds := by
        rw [firedTimes, hc]
        rfl
      rw [hexp]
      exact ih st
    · have hexp : firedTimes st (d :: ds) =
          d.time :: firedTimes { st with lastRun := some d.time } ds := by
        rw [firedTimes, hc]
        rfl
      rw [hexp, List.chain'_cons']
      exact ⟨fun y hy => firedTimes_lower_bound ds { st with lastRun := some d.time } d.time rfl y
        (List.mem_of_mem_head? hy), ih _⟩

example : splitOnChar ',' (str "1,15,30") = [str "1", str "15", str "30"] := by decide

example : intToChars 15 = str "15" := by decide

example : intToChars (-7) = str "-7" := by decide

example : matchesField 15 (str "1,15,30") = true := by decide

example : matchesField 5 (str "1-3,5") = true := by decide

example : matchesField 2 (str "1-3,5") = false := by decide

example : matchesField 10 (str "9-17") = true := by decide

example : matchesField 8 (str "9-17") = false := by decide

example : matchesField 5 (str "5abc") = true := by decide

example : matchesField 16 (str "0x10") = true := by decide

example : matchesField 3 (str "abc") = false := by decide

example : jsParseInt (str "\x0B5") = some 5 := by decide

example : matchesField 5 (str "\x0B5") = true := by decide

example : matchesField 5 (str "05,7") = false := by decide

example : jsNumber (str " 17 ") = some 17 := by decide

example : jsNumber (str "") = some 0 := by decide

example : jsNumber (str "-0x10") = none := by decide

example : parseSchedule (str "0 9 * * 1") =
    some ⟨str "0", str "9", str "*", str "*", str "1"⟩ := by decide

example : parseSchedule (str "0 9 * *") = none := by decide

example : parseSchedule (str "0  9 * * 1") = none := by decide

example : wsTokens (str "0\t9 * * 1") = [str "0", str "9", str "*", str "*", str "1"] := by decide

/-- C1: whenever the evaluator is armed (`lastRun` is null, or the observed
time is more than the 60000 ms window after it) and all five schedule fields
match the observed date, `shouldRun` returns true and stores the observed
`getTime()` as `lastRun` in the same call; in particular, after a fire, a
matching date more than the window later fires again. -/
theorem armed_matching_evaluation_fires :
    (∀ (st : JobState) (now : JSDate),
        (st.lastRun = none ∨ ∃ t, st.lastRun = some t ∧ now.time - t > 60000) →
        matchesSchedule st.sched now = true →
        shouldRun st now = (true, { st with lastRun := some now.time })) ∧
    (∀ (st st1 : JobState) (now1 now2 : JSDate),
        shouldRun st now1 = (true, st1) →
        now2.time - now1.time > 60000 →
        matchesSchedule st.sched now2 = true →
        shouldRun st1 now2 = (true, { st1 with lastRun := some now2.time })) := by
  constructor
  · intro st now harm hm
    exact shouldRun_armed_match harm hm
  · intro st st1 now1 now2 h1 hgap hm2
    have hinv : st1 = { st with lastRun := some now1.time } := by
      rcases shouldRun_cases st now1 with hc | ⟨hc, _, _⟩
      · rw [hc] at h1
        simp at h1
      · rw [hc] at h1
        injection h1 with _ h2
        exact h2.symm
    subst hinv
    exact shouldRun_armed_match (Or.inr ⟨now1.time, rfl, hgap⟩) hm2

/-- Witness for C1 at a concrete all-wildcard schedule: a first fire at
t = 100000 ms and a re-fire at t = 200000 ms, 100 s later. -/
theorem armed_matching_evaluation_fires_witness :
    shouldRun ⟨⟨str "*", str "*", str "*", str "*", str "*"⟩, none⟩ ⟨100000, 30, 9, 15, 5, 1⟩ =
      (true, ⟨⟨str "*", str "*", str "*", str "*", str "*"⟩, some 100000⟩) ∧
    shouldRun ⟨⟨str "*", str "*", str "*", str "*", str "*"⟩, some 100000⟩ ⟨200000, 30, 9, 15, 5, 1⟩ =
      (true, ⟨⟨str "*", str "*", str "*", str "*", str "*"⟩, some 200000⟩) :=
  ⟨armed_matching_evaluation_fires.1 _ _ (Or.inl rfl) (by decide),
   armed_matching_evaluation_fires.2 ⟨⟨str "*", str "*", str "*", str "*", str "*"⟩, none⟩
     ⟨⟨str "*", str "*", str "*", str "*", str "*"⟩, some 100000⟩
     ⟨100000, 30, 9, 15, 5, 1⟩ ⟨200000, 30, 9, 15, 5, 1⟩
     (armed_matching_evaluation_fires.1 _ _ (Or.inl rfl) (by decide)) (by decide) (by decide)⟩

/-- C2: whenever `lastRun` is set and the observed time is at most 60000 ms
after it (and strictly after it), `shouldRun` returns false and leaves the
state unchanged, regardless of whether the schedule matches — the
de-duplication guard is checked first and dominates. -/
theorem window_blocks_evaluation :
    ∀ (st : JobState) (now : JSDate) (t : Int),
      st.lastRun = some t → 0 < now.time - t → now.time - t ≤ 60000 →
      shouldRun st now = (false, st) := by
  intro st now t hl _ h2
  exact shouldRun_blocked hl h2

/-- Witness for C2: 30 s after a fire, even a matching all-wildcard schedule
is blocked. -/
theorem window_blocks_evaluation_witness :
    shouldRun ⟨⟨str "*", str "*", str "*", str "*", str "*"⟩, some 100000⟩ ⟨130000, 30, 9, 15, 5, 1⟩ =
      (false, ⟨⟨str "*", str "*", str "*", str "*", str "*"⟩, some 100000⟩) :=
  window_blocks_evaluation _ _ 100000 rfl (by decide) (by decide)

/-- C4: the whole-schedule match is the conjunction of the five independent
field matches, compared against the minute, the hour, the day of month, the
one-based month (`getMonth() + 1`), and the platform's day-of-week accessor
(`getDay()`). -/
theorem schedule_match_is_five_field_conjunction :
    ∀ (s : Schedule) (dt : JSDate),
      matchesSchedule s dt = true ↔
        matchesField dt.minutes s.minute = true ∧
        matchesField dt.hours s.hour = true ∧
        matchesField dt.date s.day = true ∧
        matchesField (dt.month + 1) s.month = true ∧
        matchesField dt.day s.weekday = true := by
  intro s dt
  unfold matchesSchedule
  cases h1 : matchesField dt.minutes s.minute <;>
    cases h2 : matchesField dt.hours s.hour <;>
      cases h3 : matchesField dt.date s.day <;>
        cases h4 : matchesField (dt.month + 1) s.month <;>
          cases h5 : matchesField dt.day s.weekday <;> simp

/-- C5: `"*"` matches every integer; the list `"1,15,30"` matches exactly
`{1, 15, 30}`; the range `"9-17"` matches exactly the inclusive interval
`[9, 17]`; and any range pattern whose parsed start exceeds its parsed end
matches no value at all (false, never an error). -/
theorem field_matcher_pattern_semantics :
    (∀ v : Int, matchesField v (str "*") = true) ∧
    (∀ v : Int, matchesField v (str "1,15,30") = true ↔ v = 1 ∨ v = 15 ∨ v = 30) ∧
    (∀ v : Int, matchesField v (str "9-17") = true ↔ 9 ≤ v ∧ v ≤ 17) ∧
    (∀ (v a b : Int) (p : JSString) (rest : List (Option Int)),
        p.contains ',' = false →
        (splitOnChar '-' p).map jsNumber = some a :: some b :: rest →
        b < a → matchesField v p = false) := by
  refine ⟨?_, ?_, ?_, ?_⟩
  · intro v
    simp [matchesField]
  · intro v
    rw [matchesField_list (by decide)]
    have hs : splitOnChar ',' (str "1,15,30") = [str "1", str "15", str "30"] := by decide
    rw [hs]
    have hmem : ∀ x : JSString, ([str "1", str "15", str "30"].contains x = true) ↔
        (x = str "1" ∨ x = str "15" ∨ x = str "30") := by
      intro x
      simp
    rw [hmem]
    rw [intToChars_eq_lit_iff v 1 (str "1") (by decide),
      intToChars_eq_lit_iff v 15 (str "15") (by decide),
      intToChars_eq_lit_iff v 30 (str "30") (by decide)]
  · intro v
    rw [matchesField, if_neg (by decide), if_neg (by decide), if_pos (by decide)]
    have hs : (splitOnChar '-' (str "9-17")).map jsNumber = [some 9, some 17] := by decide
    rw [hs]
    simp
  · intro v a b p rest hc hmap hba
    by_cases hd : '-' ∈ p
    · have hd2 : p.contains '-' = true := by simpa using hd
      have hstar : p ≠ str "*" := by
        rintro rfl
        exact absurd hd (by decide)
      rw [matchesField, if_neg hstar, if_neg (by simpa using hc), if_pos hd2, hmap]
      simp
      omega
    · rw [splitOnChar_of_not_mem hd] at hmap
      simp at hmap

/-- Witness for C5: the inverted range `"9-5"` (start 9 exceeds end 5)
matches nothing, and `15` is accepted by the list `"1,15,30"`. -/
theorem field_matcher_pattern_semantics_witness :
    matchesField 7 (str "9-5") = false ∧ matchesField 15 (str "1,15,30") = true :=
  ⟨field_matcher_pattern_semantics.2.2.2 7 9 5 (str "9-5") [] (by decide) (by decide) (by decide),
   (field_matcher_pattern_semantics.2.1 15).mpr (Or.inr (Or.inl rfl))⟩

/-- C6: `lastRun` is written only by a call that returns true, a firing call
stores the observed time, which is strictly greater than any previously
stored `lastRun`, and consequently the fired timestamps of any call sequence
are strictly increasing. -/
theorem lastRun_strictly_increasing :
    (∀ (st : JobState) (now : JSDate),
        (shouldRun st now).1 = false → (shouldRun st now).2 = st) ∧
    (∀ (st : JobState) (now : JSDate),
        (shouldRun st now).1 = true →
          (shouldRun st now).2.lastRun = some now.time ∧
          ∀ t, st.lastRun = some t → t < now.time) ∧
    (∀ (st : JobState) (dates : List JSDate),
        List.Chain' (· < ·) (firedTimes st dates)) := by
  refine ⟨?_, ?_, ?_⟩
  · intro st now h
    rcases shouldRun_cases st now with hc | ⟨hc, _, _⟩
    · rw [hc]
    · rw [hc] at h
      simp at h
  · intro st now h
    rcases shouldRun_cases st now with hc | ⟨hc, _, hgap⟩
    · rw [hc] at h
      simp at h
    · rw [hc]
      refine ⟨rfl, fun t ht => ?_⟩
      have := hgap t ht
      omega
  · intro st dates
    exact firedTimes_chain dates st

/-- Witness for C6: a no-match call keeps the state, and a firing call 70 s
after the previous fire stores the new time. -/
theorem lastRun_strictly_increasing_witness :
    (shouldRun ⟨⟨str "5", str "*", str "*", str "*", str "*"⟩, none⟩ ⟨0, 0, 0, 1, 0, 1⟩).2 =
      ⟨⟨str "5", str "*", str "*", str "*", str "*"⟩, none⟩ ∧
    (shouldRun ⟨⟨str "*", str "*", str "*", str "*", str "*"⟩, some 0⟩ ⟨70000, 0, 0, 1, 0, 1⟩).2.lastRun =
      some 70000 :=
  ⟨lastRun_strictly_increasing.1 _ _ (by decide),
   (lastRun_strictly_increasing.2.1 _ _ (by decide)).1⟩

/-- C7: whenever `shouldRun` returns false — guard-blocked or not matching —
the whole state (the five parsed fields and `lastRun`) is unchanged. -/
theorem false_evaluation_frame :
    ∀ (st : JobState) (now : JSDate),
      (shouldRun st now).1 = false → (shouldRun st now).2 = st := by
  intro st now h
  rcases shouldRun_cases st now with hc | ⟨hc, _, _⟩
  · rw [hc]
  · rw [hc] at h
    simp at h

/-- Witness for C7: a call blocked by the de-duplication window (the minute
field would match) leaves the state untouched. -/
theorem false_evaluation_frame_witness :
    (shouldRun ⟨⟨str "5", str "*", str "*", str "*", str "*"⟩, some 0⟩ ⟨30000, 5, 0, 1, 0, 1⟩).2 =
      ⟨⟨str "5", str "*", str "*", str "*", str "*"⟩, some 0⟩ :=
  false_evaluation_frame _ _ (by decide)

/-- C8: the combined token `"1-3,5"` is dispatched as a comma list, so it
matches exactly the value 5, and the sub-token `"1-3"` is never the decimal
representation of any integer. -/
theorem combined_list_range_token_semantics :
    ∀ v : Int, (matchesField v (str "1-3,5") = true ↔ v = 5) ∧ intToChars v ≠ str "1-3" := by
  intro v
  have hne : intToChars v ≠ str "1-3" :=
    intToChars_ne_of_dash_tail v '1' (str "-3") (by decide) (by decide)
  refine ⟨?_, hne⟩
  rw [matchesField_list (by decide)]
  have hs : splitOnChar ',' (str "1-3,5") = [str "1-3", str "5"] := by decide
  rw [hs]
  have hmem : ∀ x : JSString, ([str "1-3", str "5"].contains x = true) ↔
      (x = str "1-3" ∨ x = str "5") := by
    intro x
    simp
  rw [hmem]
  constructor
  · rintro (h | h)
    · exact absurd h hne
    · exact (intToChars_eq_lit_iff v 5 (str "5") (by decide)).mp h
  · rintro rfl
    exact Or.inr (by decide)

/-- Witness for C8: 5 is accepted by `"1-3,5"`, 3 (inside the would-be
range) is not. -/
theorem combined_list_range_token_semantics_witness :
    matchesField 5 (str "1-3,5") = true ∧ matchesField 3 (str "1-3,5") = false := by
  constructor
  · exact ((combined_list_range_token_semantics 5).1).mpr rfl
  · cases h : matchesField 3 (str "1-3,5") with
    | false => rfl
    | true => exact absurd (((combined_list_range_token_semantics 3).1).mp h) (by decide)

/-- C9 counterexample: the token `"5abc"` is not `"*"`, contains no comma
and no dash, and is not the decimal representation of any integer, yet the
field matcher accepts the value 5 for it, because JS `parseInt` reads the
leading digit run `"5"` and ignores the trailing garbage. -/
theorem unparseable_exact_token_counterexample :
    (str "5abc" ≠ str "*") ∧ (str "5abc").contains ',' = false ∧
      (str "5abc").contains '-' = false ∧ (∀ v : Int, intToChars v ≠ str "5abc") ∧
      matchesField 5 (str "5abc") = true := by
  refine ⟨by decide, by decide, by decide, ?_, by decide⟩
  intro v
  exact intToChars_ne_of_mem (s := str "5abc") (c := 'a') (by decide) (by decide) (by decide) v

/-- C9 amended: a token that is not `"*"`, contains no comma and no dash,
and on which `parseInt` yields NaN (no leading digit run after optional
whitespace, sign and `0x` prefix) matches no integer value — fail-closed,
and never behaves as the match-everything pattern. -/
theorem unparseable_exact_token_fails_closed :
    ∀ (v : Int) (p : JSString), p ≠ str "*" → p.contains ',' = false →
      p.contains '-' = false → jsParseInt p = none → matchesField v p = false := by
  intro v p h1 h2 h3 h4
  rw [matchesField, if_neg h1, if_neg (by simpa using h2), if_neg (by simpa using h3), h4]

/-- Witness for the amended C9: the digit-free token `"abc"` matches no
value, here evaluated at 0. -/
theorem unparseable_exact_token_fails_closed_witness :
    matchesField 0 (str "abc") = false :=
  unparseable_exact_token_fails_closed 0 (str "abc") (by decide) (by decide) (by decide) (by decide)

/-- C10: a pattern containing a comma matches a value exactly when one of
its comma-separated chunks is character-for-character the decimal
representation of the value; hence the leading-zero chunk `"05"` and the
whitespace-padded chunk `" 5"` never match 5. -/
theorem list_pattern_exact_string_membership :
    (∀ (v : Int) (p : JSString), p.contains ',' = true →
        (matchesField v p = true ↔ intToChars v ∈ splitOnChar ',' p)) ∧
    matchesField 5 (str "05,7") = false ∧
    matchesField 7 (str "05,7") = true ∧
    matchesField 5 (str "1, 5") = false := by
  refine ⟨?_, by decide, by decide, by decide⟩
  intro v p hp
  rw [matchesField_list hp]
  simp

/-- Witness for C10: `"1,15,30"` contains a comma and accepts 15, whose
decimal representation is the second chunk. -/
theorem list_pattern_exact_string_membership_witness :
    matchesField 15 (str "1,15,30") = true :=
  (list_pattern_exact_string_membership.1 15 (str "1,15,30") (by decide)).mpr (by decide)

/-- C3 counterexample: the expression `"0\t9 * * 1"` tokenizes on whitespace
into exactly five tokens, yet the constructor rejects it (the tab is not a
space, so `split(" ")` yields four parts); conversely `"0\t9 * * 1 2"` has
six whitespace tokens but is accepted, because `split(" ")` yields exactly
five parts, the first one containing the tab. -/
theorem five_token_parse_counterexample :
    wsTokens (str "0\t9 * * 1") = [str "0", str "9", str "*", str "*", str "1"] ∧
    parseSchedule (str "0\t9 * * 1") = none ∧
    (wsTokens (str "0\t9 * * 1 2")).length = 6 ∧
    parseSchedule (str "0\t9 * * 1 2") =
      some ⟨str "0\t9", str "*", str "*", str "1", str "2"⟩ := by
  refine ⟨by decide, by decide, by decide, by decide⟩

/-- C3 amended: construction succeeds, with the five fields in order, exactly
when splitting the expression on single space characters yields exactly five
parts (empty parts count); any other part count is rejected; and field-token
classification itself never fails — matching any token is a total boolean. -/
theorem five_space_part_parse :
    (∀ (expr a b c d e : JSString),
        splitOnChar ' ' expr = [a, b, c, d, e] →
        parseSchedule expr = some ⟨a, b, c, d, e⟩) ∧
    (∀ expr : JSString, (splitOnChar ' ' expr).length ≠ 5 → parseSchedule expr = none) ∧
    (∀ (v : Int) (p : JSString), matchesField v p = false ∨ matchesField v p = true) := by
  refine ⟨?_, ?_, ?_⟩
  · intro expr a b c d e h
    simp [parseSchedule, h]
  · intro expr h
    simp [parseSchedule, h]
  · intro v p
    exact (Bool.eq_false_or_eq_true (matchesField v p)).symm

/-- Witness for the amended C3: the five-field expression of the spec's own
scenario parses into its five fields, and its four-field truncation is
rejected. -/
theorem five_space_part_parse_witness :
    parseSchedule (str "0 9 * * 1") = some ⟨str "0", str "9", str "*", str "*", str "1"⟩ ∧
    parseSchedule (str "0 9 * *") = none :=
  ⟨five_space_part_parse.1 _ _ _ _ _ _ (by decide),
   five_space_part_parse.2.1 _ (by decide)⟩
